import Mathlib

/-!
Shallow embedding of the CPU ray tracer of `rust-wgpu` (src/main.rs,
src/scene.rs, src/camera.rs).

Modelling conventions:
  * `f32` values are idealized as exact rationals (`ℚ`).  `f32::MAX` is the
    exact rational value of the largest finite `f32`.
  * `f32::sqrt` is abstracted as an explicit function parameter
    `sqrt : ℚ → ℚ`; theorems quantify over it and assume only pointwise
    facts that the real square root satisfies (e.g. `sqrt 0 = 0`,
    `sqrt 4 = 2`).
  * For the float-to-byte cast (`as u8`), whose Rust semantics also covers
    NaN, a float component is modelled as `Option ℚ` with `none` for NaN.
  * The mutable `RgbaImage` is modelled as a function from pixel
    coordinates to RGBA byte quadruples, with `put_pixel` as pointwise
    function update.
-/

namespace RustWgpu

/-- glam::Vec3 with exact-rational components. -/
structure Vec3 where
  x : ℚ
  y : ℚ
  z : ℚ
  deriving DecidableEq, Repr

/-- glam::Vec4 with exact-rational components. -/
structure Vec4 where
  x : ℚ
  y : ℚ
  z : ℚ
  w : ℚ
  deriving DecidableEq, Repr

instance : Add Vec3 := ⟨fun a b => ⟨a.x + b.x, a.y + b.y, a.z + b.z⟩⟩

instance : Sub Vec3 := ⟨fun a b => ⟨a.x - b.x, a.y - b.y, a.z - b.z⟩⟩

instance : Neg Vec3 := ⟨fun a => ⟨-a.x, -a.y, -a.z⟩⟩

instance : HMul Vec3 ℚ Vec3 := ⟨fun a k => ⟨a.x * k, a.y * k, a.z * k⟩⟩

/-- glam::Vec3::dot. -/
def Vec3.dot (a b : Vec3) : ℚ :=
  a.x * b.x + a.y * b.y + a.z * b.z

/-- glam::Vec3::normalize: the vector divided by its length, where the
length is `sqrt (dot v v)` computed by the abstracted `f32::sqrt`. -/
def Vec3.normalize (sqrt : ℚ → ℚ) (v : Vec3) : Vec3 :=
  let len := sqrt (Vec3.dot v v)
  ⟨v.x / len, v.y / len, v.z / len⟩

/-- src/ray.rs: struct Ray. -/
structure Ray where
  origin : Vec3
  direction : Vec3
  deriving DecidableEq, Repr

/-- src/scene.rs: struct Sphere. -/
structure Sphere where
  position : Vec3
  radius : ℚ
  albedo : Vec3
  deriving DecidableEq, Repr

/-- src/scene.rs: struct Scene. -/
structure Scene where
  spheres : List Sphere
  deriving DecidableEq, Repr

/-- glam::Quat (only what the camera model needs). -/
structure Quat where
  x : ℚ
  y : ℚ
  z : ℚ
  w : ℚ
  deriving DecidableEq, Repr

/-- glam::Quat::IDENTITY. -/
def Quat.IDENTITY : Quat := ⟨0, 0, 0, 1⟩

/-- src/camera.rs: struct CameraView. -/
structure CameraView where
  position : Vec3
  rot : Quat
  deriving DecidableEq, Repr

/-- src/camera.rs: `impl Default for CameraView`, with
`position = (0, 0, -10)` and identity orientation. -/
def CameraView.default : CameraView :=
  ⟨⟨0, 0, -10⟩, Quat.IDENTITY⟩

/-- The exact rational value of `std::f32::MAX`, i.e. `2^128 - 2^104`. -/
def f32MAX : ℚ := 340282346638528859811704183484516925440

/-- src/main.rs: the body of the `for sphere in &scene.spheres` loop of
`cast_ray`, acting on the loop state `(closest_sphere, hit_distance)`. -/
def castRayStep (sqrt : ℚ → ℚ) (ray : Ray) (state : Option Sphere × ℚ)
    (sphere : Sphere) : Option Sphere × ℚ :=
  let origin := ray.origin - sphere.position
  let a := Vec3.dot ray.direction ray.direction
  let b := 2 * Vec3.dot origin ray.direction
  let c := Vec3.dot origin origin - sphere.radius * sphere.radius
  let discriminant := b * b - 4 * a * c
  if discriminant < 0 then state
  else
    let closest_t := (-b - sqrt discriminant) / (2 * a)
    if closest_t < state.2 then (some sphere, closest_t) else state

/-- src/main.rs: the sphere loop of `cast_ray`, folding `castRayStep` over
the scene starting from `(None, std::f32::MAX)`. -/
def castRayLoop (sqrt : ℚ → ℚ) (scene : Scene) (ray : Ray) :
    Option Sphere × ℚ :=
  scene.spheres.foldl (castRayStep sqrt ray) (none, f32MAX)

/-- src/main.rs: fn cast_ray. -/
def castRay (sqrt : ℚ → ℚ) (scene : Scene) (ray : Ray) : Vec4 :=
  let clear_color : Vec4 := ⟨0, 0, 0, 1⟩
  let light_direction := Vec3.normalize sqrt ⟨-1, -1, -1⟩
  if scene.spheres.isEmpty then clear_color
  else
    let result := castRayLoop sqrt scene ray
    match result.1 with
    | none => clear_color
    | some sphere =>
      let origin := ray.origin - sphere.position
      let hit_point := origin + ray.direction * result.2
      let normal := Vec3.normalize sqrt hit_point
      let intensity := max (Vec3.dot normal (-light_direction)) 0
      let sphere_color := sphere.albedo * intensity
      ⟨sphere_color.x, sphere_color.y, sphere_color.z, 1⟩

/-- src/main.rs: const IMG_WIDTH. -/
def IMG_WIDTH : ℕ := 800

/-- src/main.rs: const IMG_HEIGHT. -/
def IMG_HEIGHT : ℕ := 800

/-- An idealized `f32` for the byte-conversion boundary: `none` is NaN,
`some q` a finite value. -/
def FVal : Type := Option ℚ

/-- Multiplication of an idealized float by a rational constant
(NaN propagates). -/
def fmulF (a : FVal) (k : ℚ) : FVal :=
  Option.map (fun q => q * k) a

/-- Rust's `as u8` cast on an idealized `f32`: NaN goes to 0, otherwise
the value is truncated toward zero and saturated into `[0, 255]`. -/
def f32ToU8 : FVal → ℕ
  | none => 0
  | some q => if q ≤ 0 then 0 else min 255 ⌊q⌋₊

/-- A float RGBA color at the byte-conversion boundary. -/
structure FVec4 where
  x : FVal
  y : FVal
  z : FVal
  w : FVal

/-- Injection of an exact-rational color into the byte-conversion domain
(no NaN present). -/
def vec4ToF (v : Vec4) : FVec4 :=
  ⟨some v.x, some v.y, some v.z, some v.w⟩

/-- src/main.rs: fn convert_rgba — each component is multiplied by 255
and cast with `as u8`. -/
def convert_rgba (color : FVec4) : ℕ × ℕ × ℕ × ℕ :=
  let r := f32ToU8 (fmulF color.x 255)
  let g := f32ToU8 (fmulF color.y 255)
  let b := f32ToU8 (fmulF color.z 255)
  let a := f32ToU8 (fmulF color.w 255)
  (r, g, b, a)

/-- src/main.rs: the ray built in the pixel loop of `render_to_texture`:
origin fixed to `(0, 0, 2)` before the loop, direction
`(coord.x, coord.y, -1)` with `coord = (x / W, y / H) * 2 - 1`. -/
def pixelRay (x y : ℕ) : Ray :=
  let coordx : ℚ := (x : ℚ) / (IMG_WIDTH : ℚ) * 2 - 1
  let coordy : ℚ := (y : ℚ) / (IMG_HEIGHT : ℚ) * 2 - 1
  { origin := ⟨0, 0, 2⟩, direction := ⟨coordx, coordy, -1⟩ }

/-- The pixel buffer: a function from coordinates to RGBA bytes. -/
def Image : Type := ℕ × ℕ → ℕ × ℕ × ℕ × ℕ

/-- image::RgbaImage::put_pixel as pointwise function update. -/
def putPixel (img : Image) (x y : ℕ) (c : ℕ × ℕ × ℕ × ℕ) : Image :=
  fun p => if p = (x, y) then c else img p

/-- src/main.rs: fn render_to_texture — the nested pixel loop (y outer,
x inner) writing `convert_rgba (cast_ray scene ray)` at every pixel.
The GPU texture upload at the end is outside the model. -/
def renderToTexture (sqrt : ℚ → ℚ) (img : Image) (scene : Scene) : Image :=
  (List.range IMG_HEIGHT).foldl
    (fun im y =>
      (List.range IMG_WIDTH).foldl
        (fun im2 x =>
          putPixel im2 x y
            (convert_rgba (vec4ToF (castRay sqrt scene (pixelRay x y)))))
        im)
    img

/-- Spec formula: `a = dot(direction, direction)`. -/
def specA (ray : Ray) : ℚ :=
  Vec3.dot ray.direction ray.direction

/-- Spec formula: `b = 2 * dot(o, direction)` with
`o = ray.origin - sphere.position`. -/
def specB (s : Sphere) (ray : Ray) : ℚ :=
  2 * Vec3.dot (ray.origin - s.position) ray.direction

/-- Spec formula: `c = dot(o, o) - radius^2`. -/
def specC (s : Sphere) (ray : Ray) : ℚ :=
  Vec3.dot (ray.origin - s.position) (ray.origin - s.position) - s.radius ^ 2

/-- Spec formula: `discriminant = b^2 - 4*a*c`. -/
def specDisc (s : Sphere) (ray : Ray) : ℚ :=
  specB s ray ^ 2 - 4 * specA ray * specC s ray

/-- Spec formula: the near root `t = (-b - sqrt discriminant) / (2a)`. -/
def specNearRoot (sqrt : ℚ → ℚ) (s : Sphere) (ray : Ray) : ℚ :=
  (-(specB s ray) - sqrt (specDisc s ray)) / (2 * specA ray)

/-- Per-sphere intersection outcome: no candidate exactly when the
discriminant is negative, otherwise the single near-root candidate. -/
def sphereCandidate (sqrt : ℚ → ℚ) (ray : Ray) (s : Sphere) :
    Option (Sphere × ℚ) :=
  if specDisc s ray < 0 then none else some (s, specNearRoot sqrt s ray)

/-- All candidate hits a ray collects over the scene, in scene order. -/
def candidates (sqrt : ℚ → ℚ) (ray : Ray) (scene : Scene) :
    List (Sphere × ℚ) :=
  scene.spheres.filterMap (sphereCandidate sqrt ray)

/-- The nearest-hit selection step: keep the candidate exactly when its
distance is strictly below the running minimum. -/
def selectStep (state : Option Sphere × ℚ) (p : Sphere × ℚ) :
    Option Sphere × ℚ :=
  if p.2 < state.2 then (some p.1, p.2) else state

/-- The selection the spec describes, with the running minimum initialized
to plus infinity (`⊤` in `WithTop ℚ`) instead of `f32::MAX`. -/
def specSelectStepInf (state : Option Sphere × WithTop ℚ) (p : Sphere × ℚ) :
    Option Sphere × WithTop ℚ :=
  if (p.2 : WithTop ℚ) < state.2 then (some p.1, (p.2 : WithTop ℚ)) else state

/-- The whole nearest-hit scan as the spec words it: minimum initialized
to plus infinity. -/
def specLoopInf (sqrt : ℚ → ℚ) (scene : Scene) (ray : Ray) :
    Option Sphere × WithTop ℚ :=
  (candidates sqrt ray scene).foldl specSelectStepInf (none, ⊤)

/-- Shading as the spec words it: `hit_point = o + direction * t`,
`normal = normalize hit_point`, `intensity = max 0 (dot normal (-light))`
with `light = normalize (-1, -1, -1)`, output `(albedo * intensity, 1)`. -/
def specShade (sqrt : ℚ → ℚ) (ray : Ray) (s : Sphere) (t : ℚ) : Vec4 :=
  let hit_point := (ray.origin - s.position) + ray.direction * t
  let normal := Vec3.normalize sqrt hit_point
  let light_direction := Vec3.normalize sqrt ⟨-1, -1, -1⟩
  let intensity := max 0 (Vec3.dot normal (-light_direction))
  ⟨s.albedo.x * intensity, s.albedo.y * intensity, s.albedo.z * intensity, 1⟩

/-- The intensity term of the spec shading formula. -/
def specIntensity (sqrt : ℚ → ℚ) (ray : Ray) (s : Sphere) (t : ℚ) : ℚ :=
  max 0 (Vec3.dot
    (Vec3.normalize sqrt ((ray.origin - s.position) + ray.direction * t))
    (-(Vec3.normalize sqrt ⟨-1, -1, -1⟩)))

/-- A concrete square-root model agreeing with the real square root on
the inputs the concrete examples produce. -/
def sqrt0 : ℚ → ℚ :=
  fun q => if q = 4 then 2 else if q = 1 then 1 else if q = 1/4 then 1/2 else 0

/-- Concrete example: unit sphere at the origin with white albedo. -/
def sphere3 : Sphere := ⟨⟨0, 0, 0⟩, 1, ⟨1, 1, 1⟩⟩

/-- Concrete example: a ray starting at `(3, 0, 0)` pointing away from
`sphere3` along `+x`, so the intersection lies behind the origin. -/
def ray3 : Ray := ⟨⟨3, 0, 0⟩, ⟨1, 0, 0⟩⟩

/-- Concrete one-sphere scene for the behind-the-origin example. -/
def scene3 : Scene := ⟨[sphere3]⟩

/-- Concrete example: the scene sphere of the end-to-end test (radius 1/2,
albedo `(1, 0, 1)`, centered at the origin). -/
def sphereE : Sphere := ⟨⟨0, 0, 0⟩, 1/2, ⟨1, 0, 1⟩⟩

/-- Concrete example: the center-pixel ray, with direction `(0, 0, -1)`. -/
def rayE : Ray := pixelRay 400 400

/-- Concrete one-sphere scene for the end-to-end shading example. -/
def sceneE : Scene := ⟨[sphereE]⟩

/-- Concrete example: tangent configuration — the ray grazes the unit
sphere, so the discriminant is exactly 0. -/
def rayT : Ray := ⟨⟨1, 0, 3⟩, ⟨0, 0, -1⟩⟩

/-- Concrete example: a ray placed so that the computed near root is
exactly `f32::MAX`. -/
def rayM : Ray := ⟨⟨-(f32MAX + 1), 0, 0⟩, ⟨1, 0, 0⟩⟩

/-- Concrete one-sphere scene for the `f32::MAX` boundary example. -/
def sceneM : Scene := ⟨[sphere3]⟩

/-- Concrete example: two distinct spheres producing exactly equal hit
distances (same geometry, different albedo) — the tie-breaking scene. -/
def sphereB : Sphere := ⟨⟨0, 0, 0⟩, 1, ⟨0, 1, 0⟩⟩

/-- Concrete tie scene: `sphere3` listed before `sphereB`. -/
def sceneTie : Scene := ⟨[sphere3, sphereB]⟩

/-- Concrete all-zero initial pixel buffer. -/
def img0 : Image := fun _ => (0, 0, 0, 0)

/-! ### Unfolding lemmas for the vector instances -/

@[simp] theorem Vec3.add_def (a b : Vec3) :
    a + b = ⟨a.x + b.x, a.y + b.y, a.z + b.z⟩ := rfl

@[simp] theorem Vec3.sub_def (a b : Vec3) :
    a - b = ⟨a.x - b.x, a.y - b.y, a.z - b.z⟩ := rfl

@[simp] theorem Vec3.neg_def (a : Vec3) : -a = ⟨-a.x, -a.y, -a.z⟩ := rfl

@[simp] theorem Vec3.smul_def (a : Vec3) (k : ℚ) :
    a * k = ⟨a.x * k, a.y * k, a.z * k⟩ := rfl

/-! ### Bridging lemmas between the code loop and the candidate-list view -/

theorem castRayStep_eq (sqrt : ℚ → ℚ) (ray : Ray) (st : Option Sphere × ℚ)
    (s : Sphere) :
    castRayStep sqrt ray st s =
      match sphereCandidate sqrt ray s with
      | none => st
      | some p => selectStep st p := by
  have hdisc : 2 * Vec3.dot (ray.origin - s.position) ray.direction *
      (2 * Vec3.dot (ray.origin - s.position) ray.direction) -
      4 * Vec3.dot ray.direction ray.direction *
      (Vec3.dot (ray.origin - s.position) (ray.origin - s.position) -
        s.radius * s.radius) = specDisc s ray := by
    simp only [specDisc, specA, specB, specC]; ring
  simp only [castRayStep, sphereCandidate, selectStep, specNearRoot, specB,
    specA, hdisc]
  by_cases h : specDisc s ray < 0
  · simp [h]
  · simp [h]

theorem foldl_castRayStep_eq (sqrt : ℚ → ℚ) (ray : Ray) (l : List Sphere)
    (st : Option Sphere × ℚ) :
    l.foldl (castRayStep sqrt ray) st =
      (l.filterMap (sphereCandidate sqrt ray)).foldl selectStep st := by
  induction l generalizing st with
  | nil => rfl
  | cons s l ih =>
    rw [List.foldl_cons, castRayStep_eq]
    cases h : sphereCandidate sqrt ray s with
    | none => rw [List.filterMap_cons_none h]; exact ih st
    | some p => rw [List.filterMap_cons_some h, List.foldl_cons]; exact ih _

theorem castRayLoop_eq (sqrt : ℚ → ℚ) (scene : Scene) (ray : Ray) :
    castRayLoop sqrt scene ray =
      (candidates sqrt ray scene).foldl selectStep (none, f32MAX) :=
  foldl_castRayStep_eq sqrt ray scene.spheres _

/-! ### Properties of the strict-minimum selection fold -/

theorem selectStep_lt (st : Option Sphere × ℚ) (p : Sphere × ℚ)
    (h : p.2 < st.2) : selectStep st p = (some p.1, p.2) := by
  simp [selectStep, h]

theorem selectStep_ge (st : Option Sphere × ℚ) (p : Sphere × ℚ)
    (h : ¬ p.2 < st.2) : selectStep st p = st := by
  simp [selectStep, h]

theorem selectFold_const (l : List (Sphere × ℚ)) (st : Option Sphere × ℚ)
    (h : ∀ p ∈ l, st.2 ≤ p.2) : l.foldl selectStep st = st := by
  induction l with
  | nil => rfl
  | cons p l ih =>
    rw [List.foldl_cons, selectStep_ge st p (not_lt.mpr (h p (by simp)))]
    exact ih fun q hq => h q (by simp [hq])

theorem selectFold_spec (l : List (Sphere × ℚ)) (st : Option Sphere × ℚ) :
    (l.foldl selectStep st = st ∧ ∀ p ∈ l, st.2 ≤ p.2) ∨
    (∃ p ∈ l, l.foldl selectStep st = (some p.1, p.2) ∧ p.2 < st.2 ∧
      ∀ q ∈ l, p.2 ≤ q.2) := by
  induction l generalizing st with
  | nil => exact Or.inl ⟨rfl, by simp⟩
  | cons p l ih =>
    by_cases h : p.2 < st.2
    · rw [List.foldl_cons, selectStep_lt st p h]
      rcases ih (some p.1, p.2) with ⟨heq, hall⟩ | ⟨q, hq, heq, hlt, hall⟩
      · refine Or.inr ⟨p, by simp, heq, h, ?_⟩
        intro q hq
        rcases List.mem_cons.mp hq with rfl | hq
        · exact le_refl _
        · exact hall q hq
      · refine Or.inr ⟨q, by simp [hq], heq, lt_trans hlt h, ?_⟩
        intro r hr
        rcases List.mem_cons.mp hr with rfl | hr
        · exact le_of_lt hlt
        · exact hall r hr
    · rw [List.foldl_cons, selectStep_ge st p h]
      rcases ih st with ⟨heq, hall⟩ | ⟨q, hq, heq, hlt, hall⟩
      · refine Or.inl ⟨heq, ?_⟩
        intro q hq
        rcases List.mem_cons.mp hq with rfl | hq
        · exact not_lt.mp h
        · exact hall q hq
      · refine Or.inr ⟨q, by simp [hq], heq, hlt, ?_⟩
        intro r hr
        rcases List.mem_cons.mp hr with rfl | hr
        · exact le_of_lt (lt_of_lt_of_le hlt (not_lt.mp h))
        · exact hall r hr

theorem selectFold_first_min (l₁ l₂ : List (Sphere × ℚ)) (p : Sphere × ℚ)
    (st : Option Sphere × ℚ) (hp : p.2 < st.2)
    (h₁ : ∀ q ∈ l₁, p.2 < q.2) (h₂ : ∀ q ∈ l₂, p.2 ≤ q.2) :
    (l₁ ++ p :: l₂).foldl selectStep st = (some p.1, p.2) := by
  rw [List.foldl_append, List.foldl_cons]
  have hmid : p.2 < (l₁.foldl selectStep st).2 := by
    rcases selectFold_spec l₁ st with ⟨heq, _⟩ | ⟨q, hq, heq, _, _⟩
    · rw [heq]; exact hp
    · rw [heq]; exact h₁ q hq
  rw [selectStep_lt _ p hmid]
  exact selectFold_const l₂ _ h₂

theorem filterMap_reverse_eq {α β : Type} (f : α → Option β) (l : List α) :
    l.reverse.filterMap f = (l.filterMap f).reverse := by
  induction l with
  | nil => rfl
  | cons a l ih =>
    rw [List.reverse_cons, List.filterMap_append, ih]
    cases h : f a with
    | none =>
      rw [List.filterMap_cons_none h]
      simp [List.filterMap, h]
    | some b =>
      rw [List.filterMap_cons_some h]
      simp [List.filterMap, h]

theorem candidates_reverse (sqrt : ℚ → ℚ) (ray : Ray) (scene : Scene) :
    candidates sqrt ray ⟨scene.spheres.reverse⟩ =
      (candidates sqrt ray scene).reverse :=
  filterMap_reverse_eq _ _

/-! ### Claim theorems -/

/-- C1 (counterexample): the ray handed to the intersector does not take
its origin from the camera: at pixel `(0, 0)` the ray origin is the
hard-coded constant `(0, 0, 2)`, while the camera snapshot supplied by the
host (the default `CameraView`) has eye position `(0, 0, -10)`. -/
theorem c1_ray_origin_counterexample :
    (pixelRay 0 0).origin = ⟨0, 0, 2⟩ ∧
    CameraView.default.position = ⟨0, 0, -10⟩ ∧
    (pixelRay 0 0).origin ≠ CameraView.default.position := by
  refine ⟨rfl, rfl, ?_⟩
  simp only [pixelRay, CameraView.default, ne_eq, Vec3.mk.injEq]
  norm_num

/-- C1 (amended): for every pixel of every frame, the ray handed to the
intersector has origin equal to the fixed constant `(0, 0, 2)`,
independent of any camera state — `render_to_texture` never reads the
camera. -/
theorem c1_ray_origin_constant :
    ∀ x y : ℕ, (pixelRay x y).origin = ⟨0, 0, 2⟩ :=
  fun _ _ => rfl

/-- C2: for every sphere and ray, the per-sphere loop step computes the
coefficients `a = dot(direction, direction)`, `b = 2 * dot(o, direction)`,
`c = dot(o, o) - radius^2` with `o = ray.origin - sphere.position` and the
discriminant `b^2 - 4*a*c`, and it leaves the running state unchanged for
every state (i.e. reports no intersection with that sphere) exactly when
that discriminant is negative. -/
theorem c2_miss_iff_negative_discriminant (sqrt : ℚ → ℚ) (ray : Ray)
    (s : Sphere) :
    (∀ st : Option Sphere × ℚ, castRayStep sqrt ray st s = st) ↔
      specDisc s ray < 0 := by
  constructor
  · intro h
    by_contra hd
    have h1 := h (none, specNearRoot sqrt s ray + 1)
    rw [castRayStep_eq, sphereCandidate, if_neg hd] at h1
    have h2 : selectStep (none, specNearRoot sqrt s ray + 1)
        (s, specNearRoot sqrt s ray) =
        (none, specNearRoot sqrt s ray + 1) := h1
    rw [selectStep_lt (none, specNearRoot sqrt s ray + 1)
      (s, specNearRoot sqrt s ray) (lt_add_one _)] at h2
    exact Option.some_ne_none s (congrArg Prod.fst h2)
  · intro hd st
    rw [castRayStep_eq, sphereCandidate, if_pos hd]

/-- C3: for every sphere whose discriminant is non-negative, the loop step
uses the near root `t = (-b - sqrt discriminant) / (2a)` as the candidate
hit distance (the far root is never formed), and a negative `t` is not
rejected: in the concrete scene `scene3` the selected hit distance is
`-4 < 0`, an intersection behind the ray origin. -/
theorem c3_near_root_negative_t :
    (∀ (sqrt : ℚ → ℚ) (ray : Ray) (s : Sphere) (st : Option Sphere × ℚ),
        0 ≤ specDisc s ray →
        castRayStep sqrt ray st s =
          selectStep st (s, specNearRoot sqrt s ray)) ∧
    castRayLoop sqrt0 scene3 ray3 = (some sphere3, -4) ∧ (-4 : ℚ) < 0 := by
  refine ⟨?_,
    by norm_num [castRayLoop, castRayStep, scene3, sphere3, ray3, sqrt0,
      Vec3.dot, f32MAX],
    by norm_num⟩
  intro sqrt ray s st hd
  rw [castRayStep_eq, sphereCandidate, if_neg (not_lt.mpr hd)]

/-- C3 witness: the near-root formula applied at the concrete
behind-the-origin configuration. -/
theorem c3_witness :
    (0 : ℚ) ≤ specDisc sphere3 ray3 ∧
    castRayStep sqrt0 ray3 (none, f32MAX) sphere3 =
      selectStep (none, f32MAX) (sphere3, specNearRoot sqrt0 sphere3 ray3) :=
  ⟨by norm_num [specDisc, specA, specB, specC, sphere3, ray3, Vec3.dot],
    c3_near_root_negative_t.1 sqrt0 ray3 sphere3 (none, f32MAX)
      (by norm_num [specDisc, specA, specB, specC, sphere3, ray3, Vec3.dot])⟩

/-- C5: for every ray, if the scene is empty or the sphere scan selects no
candidate, `cast_ray` returns exactly the background color
`(0, 0, 0, 1)`. -/
theorem c5_miss_background (sqrt : ℚ → ℚ) (scene : Scene) (ray : Ray)
    (h : scene.spheres = [] ∨ (castRayLoop sqrt scene ray).1 = none) :
    castRay sqrt scene ray = ⟨0, 0, 0, 1⟩ := by
  rcases h with h | h
  · simp [castRay, h]
  · by_cases he : scene.spheres.isEmpty
    · simp [castRay, he]
    · simp only [castRay, he, Bool.false_eq_true, if_false]
      rw [h]

/-- C5 witness: the empty scene yields the background color. -/
theorem c5_witness :
    ((⟨[]⟩ : Scene).spheres = [] ∨
      (castRayLoop sqrt0 ⟨[]⟩ ray3).1 = none) ∧
    castRay sqrt0 ⟨[]⟩ ray3 = ⟨0, 0, 0, 1⟩ :=
  ⟨Or.inl rfl, c5_miss_background sqrt0 ⟨[]⟩ ray3 (Or.inl rfl)⟩

/-- C8: for a sphere and ray whose discriminant is exactly 0, the
per-sphere test yields exactly one candidate hit distance, equal to
`-b / (2a)` (assuming the square-root model sends 0 to 0, as `f32::sqrt`
does). -/
theorem c8_tangent (sqrt : ℚ → ℚ) (ray : Ray) (s : Sphere)
    (hd : specDisc s ray = 0) (hs : sqrt 0 = 0) :
    sphereCandidate sqrt ray s =
      some (s, -(specB s ray) / (2 * specA ray)) := by
  rw [sphereCandidate, if_neg (by simp [hd]), specNearRoot, hd, hs, sub_zero]

/-- C8 witness: the tangent configuration `rayT` against `sphere3` has
discriminant 0 and candidate `-b / (2a)`. -/
theorem c8_witness :
    specDisc sphere3 rayT = 0 ∧ sqrt0 0 = 0 ∧
    sphereCandidate sqrt0 rayT sphere3 =
      some (sphere3, -(specB sphere3 rayT) / (2 * specA rayT)) :=
  ⟨by norm_num [specDisc, specA, specB, specC, sphere3, rayT, Vec3.dot],
    by norm_num [sqrt0],
    c8_tangent sqrt0 rayT sphere3
      (by norm_num [specDisc, specA, specB, specC, sphere3, rayT, Vec3.dot])
      (by norm_num [sqrt0])⟩

/-- C9: the float-to-byte conversion truncates: for every component in
`[0, 1]` the byte is the floor of `component * 255`; the float color
`(1, 1, 1, 1)` converts to `(255, 255, 255, 255)` and `(0, 0, 0, 1)` to
`(0, 0, 0, 255)`. -/
theorem c9_truncating_conversion :
    (∀ c : ℚ, 0 ≤ c → c ≤ 1 →
      f32ToU8 (fmulF (some c) 255) = ⌊c * 255⌋₊) ∧
    convert_rgba ⟨some 1, some 1, some 1, some 1⟩ = (255, 255, 255, 255) ∧
    convert_rgba ⟨some 0, some 0, some 0, some 1⟩ = (0, 0, 0, 255) := by
  refine ⟨?_, by norm_num [convert_rgba, f32ToU8, fmulF],
    by norm_num [convert_rgba, f32ToU8, fmulF]⟩
  intro c h0 h1
  show (if c * 255 ≤ 0 then 0 else min 255 ⌊c * 255⌋₊) = ⌊c * 255⌋₊
  by_cases hc : c * 255 ≤ 0
  · rw [if_pos hc]
    have hz : c * 255 = 0 :=
      le_antisymm hc (by positivity)
    rw [hz]
    simp
  · rw [if_neg hc, min_eq_right]
    have h255 : c * 255 ≤ 255 := by nlinarith
    calc ⌊c * 255⌋₊ ≤ ⌊(255 : ℚ)⌋₊ := Nat.floor_le_floor h255
      _ = 255 := by norm_num

/-- C9 witness: the truncation formula applied at component `1/2`. -/
theorem c9_witness :
    (0 : ℚ) ≤ 1/2 ∧ (1/2 : ℚ) ≤ 1 ∧
    f32ToU8 (fmulF (some (1/2)) 255) = ⌊(1/2 : ℚ) * 255⌋₊ :=
  ⟨by norm_num, by norm_num,
    c9_truncating_conversion.1 (1/2) (by norm_num) (by norm_num)⟩

/-- C10: the float-to-byte cast is total and saturating: any component
with `component * 255 ≥ 255` yields byte 255, any component with
`component * 255 ≤ 0` yields byte 0, a NaN component yields byte 0, and
the result never exceeds 255 (no wrap-around). -/
theorem c10_saturating_cast :
    (∀ c : ℚ, 255 ≤ c * 255 → f32ToU8 (fmulF (some c) 255) = 255) ∧
    (∀ c : ℚ, c * 255 ≤ 0 → f32ToU8 (fmulF (some c) 255) = 0) ∧
    f32ToU8 (fmulF none 255) = 0 ∧
    (∀ v : FVal, f32ToU8 v ≤ 255) := by
  refine ⟨?_, ?_, rfl, ?_⟩
  · intro c hc
    show (if c * 255 ≤ 0 then 0 else min 255 ⌊c * 255⌋₊) = 255
    rw [if_neg (by linarith), min_eq_left]
    exact Nat.le_floor (by exact_mod_cast hc)
  · intro c hc
    show (if c * 255 ≤ 0 then 0 else min 255 ⌊c * 255⌋₊) = 0
    rw [if_pos hc]
  · intro v
    rcases v with _ | q
    · exact Nat.zero_le _
    · show (if q ≤ 0 then 0 else min 255 ⌊q⌋₊) ≤ 255
      by_cases hq : q ≤ 0
      · rw [if_pos hq]; exact Nat.zero_le _
      · rw [if_neg hq]; exact min_le_left _ _

/-- C10 witness: saturation at components 2 (high) and -3 (low). -/
theorem c10_witness :
    (255 : ℚ) ≤ 2 * 255 ∧ f32ToU8 (fmulF (some 2) 255) = 255 ∧
    (-3 : ℚ) * 255 ≤ 0 ∧ f32ToU8 (fmulF (some (-3)) 255) = 0 :=
  ⟨by norm_num, c10_saturating_cast.1 2 (by norm_num), by norm_num,
    c10_saturating_cast.2.1 (-3) (by norm_num)⟩

/-- C6: for every selected hit, `cast_ray` returns exactly the spec's
shading formula: `hit_point = (origin - position) + direction * t`,
`normal = normalize hit_point`, `intensity = max 0 (dot normal (-light))`
with `light = normalize (-1, -1, -1)`, output `(albedo * intensity, 1)`
with alpha always 1; the intensity is never negative and is exactly 0
whenever the dot product is at most 0. -/
theorem c6_shading (sqrt : ℚ → ℚ) (scene : Scene) (ray : Ray) (s : Sphere)
    (t : ℚ) (h : castRayLoop sqrt scene ray = (some s, t)) :
    castRay sqrt scene ray = specShade sqrt ray s t ∧
    (castRay sqrt scene ray).w = 1 ∧
    0 ≤ specIntensity sqrt ray s t ∧
    (Vec3.dot
        (Vec3.normalize sqrt ((ray.origin - s.position) + ray.direction * t))
        (-(Vec3.normalize sqrt ⟨-1, -1, -1⟩)) ≤ 0 →
      specIntensity sqrt ray s t = 0) := by
  have hne : scene.spheres.isEmpty = false := by
    rcases hl : scene.spheres with _ | ⟨a, l⟩
    · simp only [castRayLoop, hl, List.foldl_nil] at h
      simp at h
    · simp [hl]
  have hmain : castRay sqrt scene ray = specShade sqrt ray s t := by
    simp [castRay, hne, h, specShade, max_comm]
  refine ⟨hmain, by rw [hmain]; rfl, ?_, ?_⟩
  · simp only [specIntensity]
    exact le_max_left _ _
  · intro hd
    simp only [specIntensity]
    exact max_eq_left hd

/-- C6 witness: the end-to-end scene (sphere of radius 1/2 at the origin,
center-pixel ray from `(0, 0, 2)`) hits at distance `3/2` and is shaded
by the spec formula with opaque alpha. -/
theorem c6_witness :
    castRayLoop sqrt0 sceneE rayE = (some sphereE, 3/2) ∧
    castRay sqrt0 sceneE rayE = specShade sqrt0 rayE sphereE (3/2) ∧
    (castRay sqrt0 sceneE rayE).w = 1 := by
  have hloop : castRayLoop sqrt0 sceneE rayE = (some sphereE, 3/2) := by
    norm_num [castRayLoop, castRayStep, sceneE, sphereE, rayE, pixelRay,
      sqrt0, Vec3.dot, f32MAX, IMG_WIDTH, IMG_HEIGHT]
  exact ⟨hloop, (c6_shading sqrt0 sceneE rayE sphereE (3/2) hloop).1,
    (c6_shading sqrt0 sceneE rayE sphereE (3/2) hloop).2.1⟩

/-! ### Grid-fold lemmas for the frame renderer -/

theorem gridRowFold_notmem (f : ℕ → ℕ → ℕ × ℕ × ℕ × ℕ) (y : ℕ)
    (l : List ℕ) (im : Image) (p : ℕ × ℕ) (hp : p.1 ∉ l ∨ p.2 ≠ y) :
    (l.foldl (fun im2 x => putPixel im2 x y (f x y)) im) p = im p := by
  induction l generalizing im with
  | nil => rfl
  | cons a l ih =>
    rw [List.foldl_cons]
    have hp' : p.1 ∉ l ∨ p.2 ≠ y := by
      rcases hp with h | h
      · exact Or.inl fun hm => h (List.mem_cons_of_mem a hm)
      · exact Or.inr h
    rw [ih _ hp']
    have hne : p ≠ (a, y) := by
      intro he
      rcases hp with h | h
      · exact h (by rw [he]; exact List.mem_cons_self a l)
      · exact h (by rw [he])
    simp [putPixel, hne]

theorem gridRowFold_mem (f : ℕ → ℕ → ℕ × ℕ × ℕ × ℕ) (y : ℕ) (l : List ℕ)
    (im : Image) (x : ℕ) (hx : x ∈ l) :
    (l.foldl (fun im2 x' => putPixel im2 x' y (f x' y)) im) (x, y) =
      f x y := by
  induction l generalizing im with
  | nil => cases hx
  | cons a l ih =>
    rw [List.foldl_cons]
    by_cases h : x ∈ l
    · exact ih _ h
    · have hxa : x = a := by
        rcases List.mem_cons.mp hx with h' | h'
        · exact h'
        · exact absurd h' h
      rw [gridRowFold_notmem f y l _ (x, y) (Or.inl h)]
      subst hxa
      simp [putPixel]

theorem gridFold_notmem (f : ℕ → ℕ → ℕ × ℕ × ℕ × ℕ) (W : ℕ)
    (rows : List ℕ) (im : Image) (p : ℕ × ℕ) (hp : p.2 ∉ rows) :
    (rows.foldl
      (fun im y =>
        (List.range W).foldl (fun im2 x => putPixel im2 x y (f x y)) im)
      im) p = im p := by
  induction rows generalizing im with
  | nil => rfl
  | cons b rows ih =>
    rw [List.foldl_cons]
    rw [ih _ fun hm => hp (List.mem_cons_of_mem b hm)]
    exact gridRowFold_notmem f b (List.range W) im p
      (Or.inr fun he => hp (by rw [he]; exact List.mem_cons_self b rows))

theorem gridFold_mem (f : ℕ → ℕ → ℕ × ℕ × ℕ × ℕ) (W : ℕ) (rows : List ℕ)
    (im : Image) (x y : ℕ) (hx : x ∈ List.range W) (hy : y ∈ rows) :
    (rows.foldl
      (fun im y =>
        (List.range W).foldl (fun im2 x => putPixel im2 x y (f x y)) im)
      im) (x, y) = f x y := by
  induction rows generalizing im with
  | nil => cases hy
  | cons b rows ih =>
    rw [List.foldl_cons]
    by_cases h : y ∈ rows
    · exact ih _ h
    · have hyb : y = b := by
        rcases List.mem_cons.mp hy with h' | h'
        · exact h'
        · exact absurd h' h
      rw [gridFold_notmem f W rows _ (x, y) h]
      subst hyb
      exact gridRowFold_mem f y (List.range W) im x hx

/-- C7: the frame renderer writes every pixel `(x, y)` with
`0 ≤ x < width` and `0 ≤ y < height`: whatever the initial buffer
contents, after one invocation the pixel holds the converted color of the
ray for that pixel, whose direction is `(coord.x, coord.y, -1)` with
`coord = (x / width, y / height) * 2 - 1`. -/
theorem c7_every_pixel (sqrt : ℚ → ℚ) (img : Image) (scene : Scene)
    (x y : ℕ) (hx : x < IMG_WIDTH) (hy : y < IMG_HEIGHT) :
    renderToTexture sqrt img scene (x, y) =
      convert_rgba (vec4ToF (castRay sqrt scene (pixelRay x y))) ∧
    (pixelRay x y).direction =
      ⟨(x : ℚ) / (IMG_WIDTH : ℚ) * 2 - 1,
        (y : ℚ) / (IMG_HEIGHT : ℚ) * 2 - 1, -1⟩ := by
  refine ⟨?_, rfl⟩
  exact gridFold_mem
    (fun x y => convert_rgba (vec4ToF (castRay sqrt scene (pixelRay x y))))
    IMG_WIDTH (List.range IMG_HEIGHT) img x y
    (List.mem_range.mpr hx) (List.mem_range.mpr hy)

/-- C7 witness: the renderer applied at pixel `(0, 0)` over an all-zero
initial buffer. -/
theorem c7_witness :
    0 < IMG_WIDTH ∧ 0 < IMG_HEIGHT ∧
    renderToTexture sqrt0 img0 scene3 (0, 0) =
      convert_rgba (vec4ToF (castRay sqrt0 scene3 (pixelRay 0 0))) :=
  ⟨by norm_num [IMG_WIDTH], by norm_num [IMG_HEIGHT],
    (c7_every_pixel sqrt0 img0 scene3 0 0 (by norm_num [IMG_WIDTH])
      (by norm_num [IMG_HEIGHT])).1⟩

/-- C4 (counterexample): the running minimum is initialized to
`std::f32::MAX`, not to plus infinity: a sphere whose near root is exactly
`f32::MAX` produces a candidate, yet the scan selects nothing and
`cast_ray` returns the background color, whereas the selection the spec
words describe (minimum initialized to `+∞`) selects that sphere. -/
theorem c4_counterexample :
    candidates sqrt0 rayM sceneM = [(sphere3, f32MAX)] ∧
    castRayLoop sqrt0 sceneM rayM = (none, f32MAX) ∧
    specLoopInf sqrt0 sceneM rayM = (some sphere3, (f32MAX : WithTop ℚ)) ∧
    castRay sqrt0 sceneM rayM = ⟨0, 0, 0, 1⟩ := by
  have hcand : candidates sqrt0 rayM sceneM = [(sphere3, f32MAX)] := by
    norm_num [candidates, sphereCandidate, specDisc, specA, specB, specC,
      specNearRoot, sqrt0, sceneM, sphere3, rayM, Vec3.dot, f32MAX,
      List.filterMap_cons, List.filterMap_nil]
  have hloop : castRayLoop sqrt0 sceneM rayM = (none, f32MAX) := by
    rw [castRayLoop_eq, hcand]
    simp [selectStep]
  refine ⟨hcand, hloop, ?_, ?_⟩
  · rw [specLoopInf, hcand]
    simp [specSelectStepInf]
  · have hne : sceneM.spheres.isEmpty = false := by norm_num [sceneM]
    simp [castRay, hne, hloop]

/-- C4 (amended): the scan keeps the sphere with the smallest candidate
`t` seen so far, with the running minimum initialized to `f32::MAX` (the
largest finite `f32`, not `+∞`) and a strictly-less comparison: the
result is either no selection with every candidate at least `f32::MAX`,
or a candidate of minimal distance below `f32::MAX`; the earliest
candidate attaining the minimum wins, so on an exact tie the sphere
listed earlier is reported; and reversing the scene order leaves the
result unchanged whenever no distinct candidate ties the selected
distance. -/
theorem c4_nearest_first_selection :
    (∀ (sqrt : ℚ → ℚ) (ray : Ray) (scene : Scene),
      (castRayLoop sqrt scene ray = (none, f32MAX) ∧
        ∀ p ∈ candidates sqrt ray scene, f32MAX ≤ p.2) ∨
      (∃ p ∈ candidates sqrt ray scene,
        castRayLoop sqrt scene ray = (some p.1, p.2) ∧ p.2 < f32MAX ∧
        ∀ q ∈ candidates sqrt ray scene, p.2 ≤ q.2)) ∧
    (∀ (sqrt : ℚ → ℚ) (ray : Ray) (scene : Scene)
        (l₁ l₂ : List (Sphere × ℚ)) (p : Sphere × ℚ),
      candidates sqrt ray scene = l₁ ++ p :: l₂ → p.2 < f32MAX →
      (∀ q ∈ l₁, p.2 < q.2) → (∀ q ∈ l₂, p.2 ≤ q.2) →
      castRayLoop sqrt scene ray = (some p.1, p.2)) ∧
    (∀ (sqrt : ℚ → ℚ) (ray : Ray) (scene : Scene) (s : Sphere) (t : ℚ),
      castRayLoop sqrt scene ray = (some s, t) →
      (∀ q ∈ candidates sqrt ray scene, q.2 = t → q.1 = s) →
      castRayLoop sqrt ⟨scene.spheres.reverse⟩ ray = (some s, t)) := by
  refine ⟨?_, ?_, ?_⟩
  · intro sqrt ray scene
    rw [castRayLoop_eq]
    rcases selectFold_spec (candidates sqrt ray scene) (none, f32MAX) with
      ⟨heq, hall⟩ | ⟨p, hp, heq, hlt, hall⟩
    · exact Or.inl ⟨heq, hall⟩
    · exact Or.inr ⟨p, hp, heq, hlt, hall⟩
  · intro sqrt ray scene l₁ l₂ p hcand hp h₁ h₂
    rw [castRayLoop_eq, hcand]
    exact selectFold_first_min l₁ l₂ p _ hp h₁ h₂
  · intro sqrt ray scene s t h huniq
    rw [castRayLoop_eq] at h
    rw [castRayLoop_eq, candidates_reverse]
    rcases selectFold_spec (candidates sqrt ray scene) (none, f32MAX) with
      ⟨heq, hall⟩ | ⟨p, hp, heq, hlt, hall⟩
    · rw [heq] at h
      exact absurd h (by simp)
    · rw [heq] at h
      injection h with h1 h2
      injection h1 with h1
      rcases selectFold_spec (candidates sqrt ray scene).reverse
          (none, f32MAX) with ⟨heq', hall'⟩ | ⟨q, hq, heq', hlt', hall'⟩
      · exact absurd hlt
          (not_lt.mpr (hall' p (List.mem_reverse.mpr hp)))
      · have hqmem := List.mem_reverse.mp hq
        have hqt : q.2 = t :=
          (le_antisymm (hall' p (List.mem_reverse.mpr hp))
            (hall q hqmem)).trans h2
        have hqs : q.1 = s := huniq q hqmem hqt
        rw [heq', hqs, hqt]

/-- C4 witness: in the exact-tie scene (two coincident spheres with
different albedo), the first-listed sphere is selected; and in the
no-tie end-to-end scene, reversing the scene leaves the result
unchanged. -/
theorem c4_witness :
    castRayLoop sqrt0 sceneTie ray3 = (some sphere3, -4) ∧
    castRayLoop sqrt0 ⟨sceneE.spheres.reverse⟩ rayE =
      (some sphereE, 3/2) := by
  have hcandTie : candidates sqrt0 ray3 sceneTie =
      [] ++ (sphere3, -4) :: [(sphereB, -4)] := by
    norm_num [candidates, sphereCandidate, specDisc, specA, specB, specC,
      specNearRoot, sqrt0, sceneTie, sphere3, sphereB, ray3, Vec3.dot,
      List.filterMap_cons, List.filterMap_nil]
  have hloopE : castRayLoop sqrt0 sceneE rayE = (some sphereE, 3/2) := by
    norm_num [castRayLoop, castRayStep, sceneE, sphereE, rayE, pixelRay,
      sqrt0, Vec3.dot, f32MAX, IMG_WIDTH, IMG_HEIGHT]
  have hcandE : candidates sqrt0 rayE sceneE = [(sphereE, 3/2)] := by
    norm_num [candidates, sphereCandidate, specDisc, specA, specB, specC,
      specNearRoot, sqrt0, sceneE, sphereE, rayE, pixelRay, Vec3.dot,
      IMG_WIDTH, IMG_HEIGHT, List.filterMap_cons, List.filterMap_nil]
  constructor
  · exact c4_nearest_first_selection.2.1 sqrt0 ray3 sceneTie []
      [(sphereB, -4)] (sphere3, -4) hcandTie (by norm_num [f32MAX])
      (by simp) (by simp)
  · exact c4_nearest_first_selection.2.2 sqrt0 rayE sceneE sphereE (3/2)
      hloopE (by rw [hcandE]; simp)

end RustWgpu
